import Mathlib

/-!
Shallow embedding of the shadow-stack race engine from cilkprace
(src/cilkprace/sstack.h together with the event dispatch in
src/cilkprace/cilkprace.cpp, and the set-valued variant of the same file
kept in the repository).

Access sets are modelled as `Finset Nat`: the named header stores maps
from a 64-bit address to a source location, but every operation the
claims speak about (insert, union, witnessing intersection) acts on the
key set of those maps, and the set-valued variant of the file uses plain
hash sets of addresses.  The shadow stack is a list of frames with the
TOP of the stack at the HEAD of the list (the C++ vector keeps the top
at the back; push and pop act on the list head here).  A fatal
assertion failure in the C++ code is modelled by returning `none`.
-/

/-- Frame of the shadow stack, mirroring sp_frame_t in sstack.h:
a discriminator telling task frames from continuation frames, and the
four access sets sr, sw, pr, pw (serial or parallel reads and writes).
The frames of the code carry no sync-region tag. -/
structure sp_frame_t where
  is_continue : Bool := false
  sr : Finset Nat := ∅
  sw : Finset Nat := ∅
  pr : Finset Nat := ∅
  pw : Finset Nat := ∅
deriving DecidableEq

/-- Value-initialized frame, as produced by push() emplacing a default
sp_frame_t: a task frame with all four access sets empty. -/
def empty_frame : sp_frame_t := {}

/-- merge_into from sstack.h: if the second set is larger than the
first, the two contents are swapped, then the loop inserts every
element of the (now) smaller set into the larger one, forming their
union.  The result is the content of the first argument after the
call. -/
def merge_into (large small : Finset Nat) : Finset Nat :=
  if small.card > large.card then small ∪ large
  else large ∪ small

/-- is_disjoint from sstack.h: if the first set is larger the arguments
are swapped (one recursion step), then every element of the smaller set
that the larger set contains is added to the intersect accumulator; the
function returns the updated accumulator and its emptiness. -/
def is_disjoint (small large intersect : Finset Nat) : Finset Nat × Bool :=
  if small.card > large.card then
    let i := intersect ∪ large.filter (fun a => a ∈ small)
    (i, decide (i = ∅))
  else
    let i := intersect ∪ small.filter (fun a => a ∈ large)
    (i, decide (i = ∅))

lemma merge_into_eq (a b : Finset Nat) : merge_into a b = a ∪ b := by
  unfold merge_into
  split
  · rw [Finset.union_comm]
  · rfl

lemma is_disjoint_fst (s l i : Finset Nat) :
    (is_disjoint s l i).1 = i ∪ (s ∩ l) := by
  unfold is_disjoint
  split
  · simp only []
    rw [Finset.filter_mem_eq_inter, Finset.inter_comm]
  · simp only []
    rw [Finset.filter_mem_eq_inter]

/-- pop() from sstack.h: the assertion that the stack is non-empty is
modelled by `none`; otherwise the former top frame is removed and
returned together with the remaining stack. -/
def pop (fs : List sp_frame_t) : Option (sp_frame_t × List sp_frame_t) :=
  match fs with
  | [] => none
  | f :: rest => some (f, rest)

/-- add_task_frame from sstack.h: push() emplaces a value-initialized
frame, then back().is_continue is set to false. -/
def add_task_frame (fs : List sp_frame_t) : List sp_frame_t :=
  { empty_frame with is_continue := false } :: fs

/-- add_continue_frame from sstack.h: push() emplaces a
value-initialized frame, then back().is_continue is set to true. -/
def add_continue_frame (fs : List sp_frame_t) : List sp_frame_t :=
  { empty_frame with is_continue := true } :: fs

/-- register_write from sstack.h: record the address in the serial
write set of the top frame; back() on an empty stack aborts. -/
def register_write (fs : List sp_frame_t) (addr : Nat) :
    Option (List sp_frame_t) :=
  match fs with
  | [] => none
  | f :: rest => some ({ f with sw := insert addr f.sw } :: rest)

/-- join from sstack.h: pop the top frame oth; the assertion requires a
task frame (a continuation frame aborts, as does popping an empty stack
or calling back() on the emptied stack).  Then oth.pw is merged into
oth.sw, the witnessing intersection of back().pw with the folded oth.sw
is added to the collision accumulator, the folded oth.sw is merged into
back().pw, and the emptiness of the accumulator is returned. -/
def join (fs : List sp_frame_t) (collisions : Finset Nat) :
    Option (List sp_frame_t × Finset Nat × Bool) :=
  match fs with
  | [] => none
  | oth :: rest =>
    if oth.is_continue then none
    else
      match rest with
      | [] => none
      | back :: rest2 =>
        let othSw := merge_into oth.sw oth.pw
        let c2 := (is_disjoint back.pw othSw collisions).1
        some (({ back with pw := merge_into back.pw othSw }) :: rest2,
              c2, decide (c2 = ∅))

/-- The while loop of enter_serial from sstack.h: while the stack holds
at least two frames and the top frame is a continuation frame, pop the
top frame, merge its pw into its sw, add the witnessing intersection of
the pw of the frame below with the folded sw to the accumulator, and
merge the folded sw into the pw of the frame below.  The state is kept
as the current top frame, the frames below it, and the accumulator. -/
def fold_continues (top : sp_frame_t) (rest : List sp_frame_t)
    (collisions : Finset Nat) : sp_frame_t × List sp_frame_t × Finset Nat :=
  match rest with
  | [] => (top, [], collisions)
  | next :: rest2 =>
    if top.is_continue then
      let othSw := merge_into top.sw top.pw
      let c2 := (is_disjoint next.pw othSw collisions).1
      fold_continues { next with pw := merge_into next.pw othSw } rest2 c2
    else (top, next :: rest2, collisions)

/-- enter_serial from sstack.h: run the collapsing while loop, then
merge the pw of the remaining top frame into its sw, clear its pw, and
return the emptiness of the collision accumulator.  The function takes
no sync-region argument and the frames carry none.  back() on an empty
stack aborts, modelled by `none`. -/
def enter_serial (fs : List sp_frame_t) (collisions : Finset Nat) :
    Option (List sp_frame_t × Finset Nat × Bool) :=
  match fs with
  | [] => none
  | top :: rest =>
    let res := fold_continues top rest collisions
    some (({ res.1 with sw := merge_into res.1.sw res.1.pw, pw := ∅ })
            :: res.2.1,
          res.2.2, decide (res.2.2 = ∅))

/-- append_stack from sstack.h: the frames of the other stack are
inserted at the end of the vector of this stack, that is above its
current top.  In the top-at-head list representation the other stack
ends up in front. -/
def append_stack (l r : List sp_frame_t) : List sp_frame_t := r ++ l

/-- reduce from sstack.h (strategy A): the left view absorbs the right
view by append_stack, which copies and does not empty the right view;
then the destructor of the right view runs, whose assertion requires at
most one remaining frame.  A right view with two or more frames
therefore aborts, modelled by `none`. -/
def reduce (l r : List sp_frame_t) : Option (List sp_frame_t) :=
  let merged := append_stack l r
  if r.length ≤ 1 then some merged else none

/-- identity from sstack.h: placement-new of shadow_stack_t(false),
whose constructor builds the frame vector with zero elements.  The
fresh view therefore has no frames at all. -/
def identity_stack : List sp_frame_t := []

/-- The default-constructed shadow_stack_t (has_frame = true), used for
the main view of the tool: one value-initialized frame. -/
def initial_stack : List sp_frame_t := [empty_frame]

/-- Instrumentation events of the callback stream, restricted to those
the scenarios of the specification use.  The numeric payloads are the
sync region of the event and the stored address. -/
inductive CsiEvent where
  | detach (sr : Nat)
  | task
  | before_store (addr : Nat)
  | task_exit (sr : Nat)
  | detach_continue (sr : Nat)
  | before_sync (sr : Nat)
  | after_sync (sr : Nat)
deriving DecidableEq

/-- Event dispatch of cilkprace.cpp: detach and before_sync only trace;
task pushes a task frame; before_store registers the write;
detach_continue pushes a continuation frame; task_exit runs join and
after_sync runs enter_serial, each with a freshly constructed empty
collision set whose final content is the reported witness.  The sync
region argument of every callback is ignored by the engine. -/
def step (e : CsiEvent) (fs : List sp_frame_t) :
    Option (List sp_frame_t × Finset Nat) :=
  match e with
  | .detach _ => some (fs, ∅)
  | .task => some (add_task_frame fs, ∅)
  | .before_store a => (register_write fs a).map (fun fs2 => (fs2, ∅))
  | .task_exit _ => (join fs ∅).map (fun p => (p.1, p.2.1))
  | .detach_continue _ => some (add_continue_frame fs, ∅)
  | .before_sync _ => some (fs, ∅)
  | .after_sync _ => (enter_serial fs ∅).map (fun p => (p.1, p.2.1))

/-- Run a list of events from a given stack, numbering events from the
given index and collecting a report (event index, witness) whenever a
join or enter_serial produced a non-empty witness, exactly when the
tool prints a race condition message. -/
def runAux (i : Nat) (es : List CsiEvent) (fs : List sp_frame_t)
    (reports : List (Nat × Finset Nat)) :
    Option (List sp_frame_t × List (Nat × Finset Nat)) :=
  match es with
  | [] => some (fs, reports)
  | e :: rest =>
    match step e fs with
    | none => none
    | some (fs2, w) =>
      runAux (i + 1) rest fs2 (reports ++ if w = ∅ then [] else [(i, w)])

/-- Run an event stream from a stack, collecting race reports. -/
def run (es : List CsiEvent) (fs : List sp_frame_t) :
    Option (List sp_frame_t × List (Nat × Finset Nat)) :=
  runAux 0 es fs []

/-- Scenario S2 of the specification: two sibling tasks of one sync
region both write address 0x100 = 256. -/
def scenarioS2 : List CsiEvent :=
  [.detach 0, .task, .before_store 256, .task_exit 0,
   .detach_continue 0, .detach 0, .task, .before_store 256, .task_exit 0]

/-- Scenario S3 of the specification: a task and the continuation after
it both write address 0x42 = 66, followed by the sync. -/
def scenarioS3 : List CsiEvent :=
  [.detach 0, .task, .before_store 66, .task_exit 0,
   .detach_continue 0, .before_store 66, .after_sync 0]

/-- Growth of a frame: both the serial and the parallel write set of
the first frame are contained in those of the second. -/
def frameLe (f g : sp_frame_t) : Prop := f.sw ⊆ g.sw ∧ f.pw ⊆ g.pw

/-- Growth of the combined write content of a frame: the union of the
serial and parallel write sets does not lose addresses. -/
def contentLe (f g : sp_frame_t) : Prop := f.sw ∪ f.pw ⊆ g.sw ∪ g.pw

lemma frameLe_refl (f : sp_frame_t) : frameLe f f :=
  ⟨Finset.Subset.refl _, Finset.Subset.refl _⟩

lemma contentLe_refl (f : sp_frame_t) : contentLe f f :=
  Finset.Subset.refl _

lemma contentLe_trans {f g h : sp_frame_t} (h1 : contentLe f g)
    (h2 : contentLe g h) : contentLe f h :=
  Finset.Subset.trans h1 h2

lemma forall₂_self {R : sp_frame_t → sp_frame_t → Prop}
    (hR : ∀ x, R x x) : ∀ l : List sp_frame_t, List.Forall₂ R l l
  | [] => List.Forall₂.nil
  | _ :: t => List.Forall₂.cons (hR _) (forall₂_self hR t)

lemma forall₂_contentLe_weaken_head {a b : sp_frame_t}
    {l m : List sp_frame_t} (hab : contentLe a b)
    (h : List.Forall₂ contentLe (b :: l) m) :
    List.Forall₂ contentLe (a :: l) m := by
  cases h with
  | cons hbc hlm => exact List.Forall₂.cons (contentLe_trans hab hbc) hlm

lemma forall₂_contentLe_congr_head {t t2 : sp_frame_t}
    {L r : List sp_frame_t} (h : List.Forall₂ contentLe L (t :: r))
    (ht : contentLe t t2) : List.Forall₂ contentLe L (t2 :: r) := by
  cases h with
  | cons hat hlr => exact List.Forall₂.cons (contentLe_trans hat ht) hlr

/-- After the collapsing loop, the remaining top frame is not a
continuation frame unless it is the only frame left. -/
lemma fold_continues_post :
    ∀ (rest : List sp_frame_t) (top : sp_frame_t) (c : Finset Nat),
      (fold_continues top rest c).1.is_continue = false ∨
        (fold_continues top rest c).2.1 = [] := by
  intro rest
  induction rest with
  | nil => intro top c; right; rfl
  | cons next rest2 ih =>
    intro top c
    by_cases htop : top.is_continue
    · simpa [fold_continues, htop] using ih _ _
    · left
      simp [fold_continues, htop]

/-- The collapsing loop pops some number of frames from the top, and
every surviving frame keeps at least its former combined write
content. -/
lemma fold_continues_contentLe :
    ∀ (rest : List sp_frame_t) (top : sp_frame_t) (c : Finset Nat),
      ∃ k, List.Forall₂ contentLe ((top :: rest).drop k)
        ((fold_continues top rest c).1 :: (fold_continues top rest c).2.1) := by
  intro rest
  induction rest with
  | nil =>
    intro top c
    exact ⟨0, forall₂_self contentLe_refl _⟩
  | cons next rest2 ih =>
    intro top c
    by_cases htop : top.is_continue
    · have hnext : contentLe next
        { next with pw := merge_into next.pw (merge_into top.sw top.pw) } := by
        unfold contentLe
        rw [merge_into_eq, merge_into_eq]
        intro x hx
        simp only [Finset.mem_union] at hx ⊢
        tauto
      obtain ⟨k, hk⟩ := ih { next with
        pw := merge_into next.pw (merge_into top.sw top.pw) }
        ((is_disjoint next.pw (merge_into top.sw top.pw) c).1)
      refine ⟨k + 1, ?_⟩
      simp only [fold_continues, htop, if_true]
      rw [List.drop_succ_cons]
      cases k with
      | zero =>
        rw [List.drop_zero] at hk ⊢
        exact forall₂_contentLe_weaken_head hnext hk
      | succ j =>
        rw [List.drop_succ_cons] at hk ⊢
        exact hk
    · exact ⟨0, by simp only [fold_continues, htop, if_false,
        List.drop_zero]; exact forall₂_self contentLe_refl _⟩

/-- C1: on a shadow stack with at least two frames whose top frame is
a task frame, join pops the top frame oth, folds oth.pw into oth.sw,
yields as witness exactly the intersection of the pw of the new top
frame with the folded oth.sw, unions the folded oth.sw into the pw of
the new top frame, and returns disjoint = true exactly when the
witness is empty. -/
theorem join_C1 (oth nt : sp_frame_t) (rest : List sp_frame_t)
    (h : oth.is_continue = false) :
    join (oth :: nt :: rest) ∅ =
      some (({ nt with pw := nt.pw ∪ (oth.sw ∪ oth.pw) }) :: rest,
            nt.pw ∩ (oth.sw ∪ oth.pw),
            decide (nt.pw ∩ (oth.sw ∪ oth.pw) = ∅)) := by
  simp [join, h, merge_into_eq, is_disjoint_fst]

/-- Witness for C1 at a concrete two-frame stack. -/
theorem join_C1_witness :
    join [(⟨false, ∅, {1}, ∅, {2}⟩ : sp_frame_t),
          (⟨false, ∅, ∅, ∅, {2}⟩ : sp_frame_t)] ∅ =
      some (({ (⟨false, ∅, ∅, ∅, {2}⟩ : sp_frame_t) with
                 pw := {2} ∪ ({1} ∪ {2}) }) :: [],
            ({2} : Finset Nat) ∩ ({1} ∪ {2}),
            decide (({2} : Finset Nat) ∩ ({1} ∪ {2}) = ∅)) :=
  join_C1 ⟨false, ∅, {1}, ∅, {2}⟩ ⟨false, ∅, ∅, ∅, {2}⟩ [] rfl

/-- C7: merge_into computes the union of the original contents of its
two arguments, whether or not the size comparison swapped them. -/
theorem merge_into_C7 : ∀ dst src : Finset Nat,
    merge_into dst src = dst ∪ src :=
  fun dst src => merge_into_eq dst src

/-- C9: popping from an empty shadow stack hits the fatal assertion,
and on any non-empty stack pop removes and returns the former top
frame. -/
theorem pop_C9 :
    pop ([] : List sp_frame_t) = none ∧
      ∀ (f : sp_frame_t) (rest : List sp_frame_t),
        pop (f :: rest) = some (f, rest) :=
  ⟨rfl, fun _ _ => rfl⟩

/-- Counterexample to C6: the stack built by identity has zero frames,
not a single empty task frame. -/
theorem identity_C6_cex :
    identity_stack = ([] : List sp_frame_t) ∧
      identity_stack.length ≠ 1 := by decide

/-- C6 amended: identity constructs an empty shadow stack with zero
frames; the single empty task frame belongs to the default-constructed
stack used for the main view of the tool. -/
theorem identity_C6_amended :
    identity_stack = ([] : List sp_frame_t) ∧
    initial_stack = [empty_frame] ∧
    empty_frame.is_continue = false ∧ empty_frame.sr = ∅ ∧
    empty_frame.sw = ∅ ∧ empty_frame.pr = ∅ ∧ empty_frame.pw = ∅ := by
  decide

/-- C10: strategy-A reduce appends a copy of the frames of the right
view to the left view and then destructs the right view, whose
assertion tolerates at most one remaining frame; so reduce aborts
whenever the right view holds two or more frames, and otherwise the
frames of the left view, read bottom to top, become its old frames
followed by the old frames of the right view. -/
theorem reduce_C10 :
    (∀ l r : List sp_frame_t, 2 ≤ r.length → reduce l r = none) ∧
    (∀ l r s : List sp_frame_t, reduce l r = some s →
      s.reverse = l.reverse ++ r.reverse) := by
  constructor
  · intro l r h
    simp only [reduce, append_stack]
    rw [if_neg]
    omega
  · intro l r s h
    simp only [reduce, append_stack] at h
    by_cases hr : r.length ≤ 1
    · rw [if_pos hr, Option.some.injEq] at h
      rw [← h, List.reverse_append]
    · rw [if_neg hr] at h
      exact absurd h (by simp)

/-- Witness for C10: a two-frame right view aborts, a one-frame right
view is appended after the left frames. -/
theorem reduce_C10_witness :
    reduce ([] : List sp_frame_t) [empty_frame, empty_frame] = none ∧
      ([empty_frame] : List sp_frame_t).reverse =
        ([] : List sp_frame_t).reverse ++ [empty_frame].reverse :=
  ⟨reduce_C10.1 [] [empty_frame, empty_frame] (by decide),
   reduce_C10.2 [] [empty_frame] [empty_frame] (by decide)⟩

/-- C8: when the top frame is not a continuation frame, enter_serial
pops nothing and only performs the final folding step: the pw of the
top frame is merged into its sw and cleared, the stack depth is
unchanged, and the returned witness is empty with disjoint = true. -/
theorem enter_serial_C8 (top : sp_frame_t) (rest : List sp_frame_t)
    (h : top.is_continue = false) :
    enter_serial (top :: rest) ∅ =
      some (({ top with sw := top.sw ∪ top.pw, pw := ∅ }) :: rest, ∅, true) ∧
    (({ top with sw := top.sw ∪ top.pw, pw := ∅ }) :: rest).length
      = (top :: rest).length := by
  refine ⟨?_, by simp⟩
  cases rest with
  | nil => simp [enter_serial, fold_continues, merge_into_eq]
  | cons next r2 => simp [enter_serial, fold_continues, h, merge_into_eq]

/-- Witness for C8 on a concrete one-frame stack whose top is a task
frame. -/
theorem enter_serial_C8_witness :
    enter_serial [empty_frame] ∅ =
      some (({ empty_frame with
                 sw := empty_frame.sw ∪ empty_frame.pw, pw := ∅ }) :: [],
            ∅, true) ∧
    (({ empty_frame with
          sw := empty_frame.sw ∪ empty_frame.pw, pw := ∅ }) :: []).length
      = ([empty_frame] : List sp_frame_t).length :=
  enter_serial_C8 empty_frame [] rfl

/-- Counterexample to C2: the frames of the code carry no sync-region
tag and enter_serial takes no sync-region argument, so a stack holding
two continuation frames above a task frame — where the claim would
keep the outer-region continuation on the stack — has both
continuation frames popped and collapsed, leaving no continuation
frame at all. -/
theorem enter_serial_C2_cex :
    enter_serial [(⟨true, ∅, ∅, ∅, ∅⟩ : sp_frame_t),
                  (⟨true, ∅, ∅, ∅, ∅⟩ : sp_frame_t), empty_frame] ∅ =
      some ([empty_frame], ∅, true) ∧
    empty_frame.is_continue = false := by decide

/-- C2 amended: enter_serial pops and collapses every continuation
frame on top of the stack while at least two frames remain, regardless
of any sync region: afterwards the top frame is not a continuation
frame unless it is the only frame left. -/
theorem enter_serial_C2 (fs : List sp_frame_t) (c : Finset Nat)
    (fs2 : List sp_frame_t) (c2 : Finset Nat) (b : Bool)
    (h : enter_serial fs c = some (fs2, c2, b)) :
    ∃ t r, fs2 = t :: r ∧ (t.is_continue = false ∨ r = []) := by
  cases fs with
  | nil => simp [enter_serial] at h
  | cons top rest =>
    simp only [enter_serial, Option.some.injEq, Prod.mk.injEq] at h
    obtain ⟨hfs, -, -⟩ := h
    refine ⟨_, _, hfs.symm, ?_⟩
    have hpost := fold_continues_post rest top c
    cases hpost with
    | inl h1 => exact Or.inl h1
    | inr h1 => exact Or.inr h1

/-- Witness for C2 amended at a concrete one-frame stack. -/
theorem enter_serial_C2_witness :
    ∃ t r, ([empty_frame] : List sp_frame_t) = t :: r ∧
      (t.is_continue = false ∨ r = []) :=
  enter_serial_C2 [empty_frame] ∅ [empty_frame] ∅ true (by decide)

/-- Counterexample to C3: running scenario S2 from the initial stack
reports no race at all — in particular none at the second task_exit.
The join of the second task_exit compares the writes of the second
task against the empty pw of the continuation frame pushed by
detach_continue, not against the frame holding the writes of the first
task. -/
theorem run_C3_cex :
    run scenarioS2 initial_stack =
      some ([(⟨true, ∅, ∅, ∅, {256}⟩ : sp_frame_t),
             (⟨false, ∅, ∅, ∅, {256}⟩ : sp_frame_t)], []) := by decide

/-- C3 amended: scenario S2 reports no race at either task_exit; the
race on address 0x100 = 256 surfaces only when a sync is appended to
the stream, as a single report at the enter_serial of that added
after_sync event. -/
theorem run_C3_amended :
    run scenarioS2 initial_stack =
      some ([(⟨true, ∅, ∅, ∅, {256}⟩ : sp_frame_t),
             (⟨false, ∅, ∅, ∅, {256}⟩ : sp_frame_t)], []) ∧
    run (scenarioS2 ++ [CsiEvent.after_sync 0]) initial_stack =
      some ([(⟨false, ∅, {256}, ∅, ∅⟩ : sp_frame_t)], [(9, {256})]) ∧
    (scenarioS2 ++ [CsiEvent.after_sync 0]).get? 9 =
      some (CsiEvent.after_sync 0) := by decide

/-- C4: running scenario S3 from the initial stack reports exactly one
race, with witness containing only address 0x42 = 66, and it is
reported at event index 6, the after_sync event whose dispatch runs
enter_serial. -/
theorem run_C4 :
    run scenarioS3 initial_stack =
      some ([(⟨false, ∅, {66}, ∅, ∅⟩ : sp_frame_t)], [(6, {66})]) ∧
    scenarioS3.get? 6 = some (CsiEvent.after_sync 0) := by decide

/-- Counterexample to C5: enter_serial clears the pw of the top frame
while that frame stays on the stack, so an address present in pw
before the call is gone from pw afterwards. -/
theorem monotone_C5_cex :
    enter_serial [(⟨false, ∅, ∅, ∅, {5}⟩ : sp_frame_t)] ∅ =
      some ([(⟨false, ∅, {5}, ∅, ∅⟩ : sp_frame_t)], ∅, true) ∧
    5 ∈ (⟨false, ∅, ∅, ∅, {5}⟩ : sp_frame_t).pw ∧
    5 ∉ (⟨false, ∅, {5}, ∅, ∅⟩ : sp_frame_t).pw := by decide

/-- C5 amended: register_write and join never remove an address from
the sw or pw of a frame that stays on the stack, and enter_serial and
strategy-A reduce never remove an address from the combined write
content sw union pw of a surviving frame; enter_serial only moves the
pw of the remaining top frame into its sw before clearing pw, and
exit_func is not covered, since it erases the stack-local address
range from the sw of the live top frame. -/
theorem monotone_C5 :
    (∀ (fs : List sp_frame_t) (a : Nat) (fs2 : List sp_frame_t),
        register_write fs a = some fs2 → List.Forall₂ frameLe fs fs2) ∧
    (∀ (fs : List sp_frame_t) (c : Finset Nat) (fs2 : List sp_frame_t)
        (c2 : Finset Nat) (b : Bool), join fs c = some (fs2, c2, b) →
        List.Forall₂ frameLe fs.tail fs2) ∧
    (∀ (fs : List sp_frame_t) (c : Finset Nat) (fs2 : List sp_frame_t)
        (c2 : Finset Nat) (b : Bool), enter_serial fs c = some (fs2, c2, b) →
        ∃ k, List.Forall₂ contentLe (fs.drop k) fs2) ∧
    (∀ (l r s : List sp_frame_t), reduce l r = some s →
        List.Forall₂ frameLe (r ++ l) s) := by
  refine ⟨?_, ?_, ?_, ?_⟩
  · intro fs a fs2 h
    cases fs with
    | nil => simp [register_write] at h
    | cons f rest =>
      simp only [register_write, Option.some.injEq] at h
      rw [← h]
      exact List.Forall₂.cons
        ⟨Finset.subset_insert a f.sw, Finset.Subset.refl _⟩
        (forall₂_self frameLe_refl rest)
  · intro fs c fs2 c2 b h
    cases fs with
    | nil => simp [join] at h
    | cons oth rest =>
      by_cases hoc : oth.is_continue
      · simp [join, hoc] at h
      · cases rest with
        | nil => simp [join, hoc] at h
        | cons back r2 =>
          simp only [join, hoc, Bool.false_eq_true, if_false,
            Option.some.injEq, Prod.mk.injEq] at h
          obtain ⟨hfs, -, -⟩ := h
          rw [← hfs]
          refine List.Forall₂.cons ⟨Finset.Subset.refl _, ?_⟩
            (forall₂_self frameLe_refl r2)
          rw [merge_into_eq]
          exact Finset.subset_union_left
  · intro fs c fs2 c2 b h
    cases fs with
    | nil => simp [enter_serial] at h
    | cons top rest =>
      simp only [enter_serial, Option.some.injEq, Prod.mk.injEq] at h
      obtain ⟨hfs, -, -⟩ := h
      obtain ⟨k, hk⟩ := fold_continues_contentLe rest top c
      refine ⟨k, ?_⟩
      rw [← hfs]
      refine forall₂_contentLe_congr_head hk ?_
      unfold contentLe
      rw [merge_into_eq]
      simp
  · intro l r s h
    simp only [reduce, append_stack] at h
    by_cases hr : r.length ≤ 1
    · rw [if_pos hr, Option.some.injEq] at h
      rw [← h]
      exact forall₂_self frameLe_refl _
    · rw [if_neg hr] at h
      exact absurd h (by simp)

/-- Witness for C5 amended, applying each conjunct at a concrete
input. -/
theorem monotone_C5_witness :
    List.Forall₂ frameLe initial_stack
      [(⟨false, ∅, {5}, ∅, ∅⟩ : sp_frame_t)] ∧
    List.Forall₂ frameLe
      ([empty_frame, empty_frame] : List sp_frame_t).tail [empty_frame] ∧
    (∃ k, List.Forall₂ contentLe
      (([empty_frame] : List sp_frame_t).drop k) [empty_frame]) ∧
    List.Forall₂ frameLe
      ([empty_frame] ++ ([] : List sp_frame_t)) [empty_frame] :=
  ⟨monotone_C5.1 initial_stack 5 [⟨false, ∅, {5}, ∅, ∅⟩] (by decide),
   monotone_C5.2.1 [empty_frame, empty_frame] ∅ [empty_frame] ∅ true
     (by decide),
   monotone_C5.2.2.1 [empty_frame] ∅ [empty_frame] ∅ true (by decide),
   monotone_C5.2.2.2 [empty_frame] [] [empty_frame] (by decide)⟩
